import Mathlib

/-!
Verification of the wikitext-cleaning core of the ebook-reader-dict
repository (src/scripts/utils.py and src/scripts/get.py), via a shallow
embedding in Lean.

Python strings are modelled as Lean `String` / `List Char`.  The Python
`re` substitutions are modelled by a small backtracking regex engine over
`List Char` whose enumeration order mirrors Python's leftmost,
greedy-with-backtracking semantics for the specific patterns used by the
source.  Code that can raise a Python exception is modelled with `Option`
(`none` = the call raises).

The locale rule tables (`templates_ignored`, `templates_multi`,
`templates_italic`, `templates_other`, imported from `scripts/lang`, not
present under src/) are injected configuration; they are modelled as an
abstract `LocaleTables` structure, per the spec's description of them as
external configuration.
-/

/-- Python whitespace for `str.strip` / `\s` (ASCII part of Python's
whitespace class, which is what the repository's data exercises). -/
def isPySpace (c : Char) : Bool :=
  c == ' ' || c == '\t' || c == '\n' || c == '\r' || c == '\x0b' || c == '\x0c'

/-- Python word character for `\w` (ASCII alphanumerics, underscore, and
the Latin-1 / Latin-Extended letters, covering the accented letters that
occur in the wiki data; an approximation of Python's full Unicode `\w`). -/
def pyWordChar (c : Char) : Bool :=
  c.isAlphanum || c == '_' ||
    (0xC0 ≤ c.toNat && c.toNat ≤ 0x24F && !(c.toNat == 0xD7) && !(c.toNat == 0xF7))

/-- Leading-whitespace strip on a character list (Python `str.lstrip`). -/
def pyLStripL (l : List Char) : List Char := l.dropWhile isPySpace

/-- Trailing-whitespace strip on a character list (Python `str.rstrip`). -/
def pyRStripL (l : List Char) : List Char := (l.reverse.dropWhile isPySpace).reverse

/-- Both-ends strip on a character list (Python `str.strip`). -/
def pyStripL (l : List Char) : List Char := pyRStripL (pyLStripL l)

/-- Python `str.strip()`. -/
def pyStrip (s : String) : String := ⟨pyStripL s.data⟩

/-- Python `str.lstrip()`. -/
def pyLStrip (s : String) : String := ⟨pyLStripL s.data⟩

/-- Python `str.startswith`. -/
def pyStartsWith (s pat : String) : Bool := pat.data.isPrefixOf s.data

/-- utils.capitalize: `f"{text[0].capitalize()}{text[1:]}"`.
`text[0]` raises `IndexError` on the empty string, hence `Option`.
`str.capitalize` of a single character upper-cases it (ASCII case mapping
modelled by `Char.toUpper`). -/
def capitalize (text : String) : Option String :=
  match text.data with
  | [] => none
  | c :: rest => some ⟨c.toUpper :: rest⟩

/-! ## A small backtracking regex engine

`matchRE fuel r l` returns the list of possible remainders (suffixes of
`l` left over after `r` consumed a prefix), in Python's backtracking
preference order: alternatives left first, quantifiers greedy.  `fuel`
bounds the recursion depth; `reFuel` below is always sufficient for the
patterns used here. -/

inductive RE where
  | eps : RE
  | chr : Char → RE
  | cls : (Char → Bool) → RE
  | seq : RE → RE → RE
  | alt : RE → RE → RE
  | star : RE → RE

def reSize : RE → Nat
  | RE.eps => 1
  | RE.chr _ => 1
  | RE.cls _ => 1
  | RE.seq a b => reSize a + reSize b + 1
  | RE.alt a b => reSize a + reSize b + 1
  | RE.star r => reSize r + 1

def matchRE : Nat → RE → List Char → List (List Char)
  | 0, _, _ => []
  | Nat.succ _, RE.eps, s => [s]
  | Nat.succ _, RE.chr _, [] => []
  | Nat.succ _, RE.chr c, d :: ds => if d == c then [ds] else []
  | Nat.succ _, RE.cls _, [] => []
  | Nat.succ _, RE.cls p, d :: ds => if p d then [ds] else []
  | Nat.succ n, RE.seq a b, s => (matchRE n a s).flatMap (fun r => matchRE n b r)
  | Nat.succ n, RE.alt a b, s => matchRE n a s ++ matchRE n b s
  | Nat.succ n, RE.star r, s =>
      ((matchRE n r s).filter (fun t => t.length < s.length)).flatMap
        (fun t => matchRE n (RE.star r) t) ++ [s]

def reFuel (r : RE) (l : List Char) : Nat := (l.length + 1) * (reSize r + 1) + 1

/-- A literal character sequence followed by a continuation pattern. -/
def cat : List Char → RE → RE
  | [], k => k
  | c :: cs, k => RE.seq (RE.chr c) (cat cs k)

/-- Greedy `?` (try the body first, as Python does). -/
def reOpt (r : RE) : RE := RE.alt r RE.eps

/-- Greedy `+`. -/
def rePlus (r : RE) : RE := RE.seq r (RE.star r)

/-- Match `r` at the start of `l`; on success return
`(matched chars, remainder)` for the first match in backtracking order. -/
def matchPlain (r : RE) (l : List Char) : Option (List Char × List Char) :=
  match (matchRE (reFuel r l) r l).head? with
  | none => none
  | some rest => some (l.take (l.length - rest.length), rest)

/-- Match `a` then capturing group `g` then `b` at the start of `l`;
return `(whole match, group content, remainder)` for the first success in
backtracking order (the enumeration order is Python's). -/
def matchCap3 (a g b : RE) (l : List Char) : Option (List Char × List Char × List Char) :=
  let f := reFuel (RE.seq a (RE.seq g b)) l
  ((matchRE f a l).flatMap (fun r1 =>
    (matchRE f g r1).flatMap (fun r2 =>
      (matchRE f b r2).map (fun r3 =>
        (l.take (l.length - r3.length), r1.take (r1.length - r2.length), r3))))).head?

/-! ## re.sub as a left-to-right scanner

`subScan` walks the text; at each position it offers the suffix to `step`
together with a beginning-of-line flag (for `re.MULTILINE` `^` anchors).
`step` returns `(replacement, matched, remainder)` on a match.  Matches are
non-overlapping and scanning resumes after the matched text, exactly as
`re.sub` does.  All patterns used here can only match non-empty text. -/

def subScan :
    Nat → (Bool → List Char → Option (List Char × List Char × List Char)) →
    Bool → List Char → List Char
  | 0, _, _, l => l
  | Nat.succ _, _, _, [] => []
  | Nat.succ n, step, bl, c :: cs =>
    match step bl (c :: cs) with
    | some (rep, matched, rest) =>
        if matched.isEmpty then c :: subScan n step (c == '\n') cs
        else rep ++ subScan n step (matched.getLast? == some '\n') rest
    | none => c :: subScan n step (c == '\n') cs

def runSub (step : Bool → List Char → Option (List Char × List Char × List Char))
    (s : String) : String :=
  ⟨subScan (s.data.length + 1) step true s.data⟩

/-- Python `str.replace(pat, rep)` (all occurrences, left to right,
non-overlapping); `pat` is non-empty in every use below. -/
def stepLit (pat rep : List Char) (_ : Bool) (l : List Char) :
    Option (List Char × List Char × List Char) :=
  if pat.isPrefixOf l then some (rep, pat, l.drop pat.length) else none

def pyReplace (s pat rep : String) : String :=
  ⟨subScan (s.data.length + 1) (stepLit pat.data rep.data) true s.data⟩

/-! ## The substitution passes of utils.clean (source order, lines 171-217)

String literals write `{` as `\x7b` and `}` as `\x7d`, and the quote
character `'` as `\x27`. -/

/-- The wiki quote character `'`. -/
def qt : Char := '\x27'

/-- Remove-the-match step for a plain (group-free) pattern: the
replacement is the empty string. -/
def stepRem (r : RE) (_ : Bool) (l : List Char) :
    Option (List Char × List Char × List Char) :=
  (matchPlain r l).map (fun p => ([], p.1, p.2))

/-- Replace-by-group step for a pattern `a(g)b` with replacement `\1`. -/
def stepGrp (a g b : RE) (_ : Bool) (l : List Char) :
    Option (List Char × List Char × List Char) :=
  (matchCap3 a g b l).map (fun t => (t.2.1, t.1, t.2.2))

/-- Pattern `'''?` (two quotes then an optional third, greedy). -/
def reBoldPre : RE := cat [qt, qt] (reOpt (RE.chr qt))

/-- Pattern `[^']+`. -/
def reBoldGrp : RE := rePlus (RE.cls (fun d => !(d == qt)))

/-- sub(r"'''?([^']+)'''?", "\\1"). -/
def stepBold (b : Bool) (l : List Char) : Option (List Char × List Char × List Char) :=
  stepGrp reBoldPre reBoldGrp reBoldPre b l

/-- Pattern `<ref[^>]+>[^<]+</ref[^>]+>`. -/
def reRef : RE :=
  cat "<ref".data (RE.seq (rePlus (RE.cls (fun c => !(c == '>'))))
    (RE.seq (RE.chr '>') (RE.seq (rePlus (RE.cls (fun c => !(c == '<'))))
      (cat "</ref".data (RE.seq (rePlus (RE.cls (fun c => !(c == '>')))) (RE.chr '>'))))))

/-- Pattern `<br[^>]+/?>`. -/
def reBr : RE :=
  cat "<br".data (RE.seq (rePlus (RE.cls (fun c => !(c == '>'))))
    (RE.seq (reOpt (RE.chr '/')) (RE.chr '>')))

/-- Pattern `.` (any character but a newline). -/
def reDotCh : RE := RE.cls (fun c => !(c == '\n'))

/-- Pattern `\|[^\]]+` (one extra pipe-separated field of a file embed). -/
def reFileArg : RE := RE.seq (RE.chr '|') (rePlus (RE.cls (fun c => !(c == ']'))))

/-- Pattern `\[\[.+:[^|\]]+(?:\|[^\]]+){2,}\]\]`. -/
def reFiles : RE :=
  cat "[[".data (RE.seq (rePlus reDotCh) (RE.seq (RE.chr ':')
    (RE.seq (rePlus (RE.cls (fun c => !(c == '|') && !(c == ']'))))
      (RE.seq reFileArg (RE.seq reFileArg (RE.seq (RE.star reFileArg)
        (cat "]]".data RE.eps)))))))

/-- Pattern `\[\[` before the group of `[[a]] -> a`. -/
def reLink1Pre : RE := cat "[[".data RE.eps

/-- Pattern `[^|\]]+`. -/
def reLink1Grp : RE := rePlus (RE.cls (fun c => !(c == '|') && !(c == ']')))

/-- Pattern `\]\]`. -/
def reLink1Post : RE := cat "]]".data RE.eps

/-- Pattern `\[\[[^|]+\|` before the group of `[[a|b]] -> b`. -/
def reLink2Pre : RE :=
  cat "[[".data (RE.seq (rePlus (RE.cls (fun c => !(c == '|')))) (RE.chr '|'))

/-- Pattern `[^\]]+`. -/
def reLink2Grp : RE := rePlus (RE.cls (fun c => !(c == ']')))

/-- Pattern `{\|[^}]+\|}`. -/
def reTable : RE :=
  cat ['\x7b', '|'] (RE.seq (rePlus (RE.cls (fun c => !(c == '\x7d'))))
    (cat ['|', '\x7d'] RE.eps))

/-- Pattern `^=+\s?` (the part before the heading group; `^` is handled
by the scanner's beginning-of-line flag). -/
def reHeadPre : RE := RE.seq (rePlus (RE.chr '=')) (reOpt (RE.cls isPySpace))

/-- Pattern `[^=]+`. -/
def reHeadGrp : RE := rePlus (RE.cls (fun c => !(c == '=')))

/-- Pattern `\s?=+`. -/
def reHeadPost : RE := RE.seq (reOpt (RE.cls isPySpace)) (rePlus (RE.chr '='))

/-- sub(r"^=+\s?([^=]+)\s?=+", lambda m: m.group(1).strip(), MULTILINE). -/
def stepHeading (bl : Bool) (l : List Char) : Option (List Char × List Char × List Char) :=
  if bl then
    (matchCap3 reHeadPre reHeadGrp reHeadPost l).map
      (fun t => (pyStripL t.2.1, t.1, t.2.2))
  else none

/-- Pattern `\[\[[^:\]]+:[^\]]+\]\]`. -/
def reNamespaced : RE :=
  cat "[[".data (RE.seq (rePlus (RE.cls (fun c => !(c == ':') && !(c == ']'))))
    (RE.seq (RE.chr ':') (RE.seq (rePlus (RE.cls (fun c => !(c == ']'))))
      (cat "]]".data RE.eps))))

/-- Pattern `\[http[^\s]+ ` (before the label group of an external link). -/
def reExtPre : RE :=
  cat "[http".data (RE.seq (rePlus (RE.cls (fun c => !(isPySpace c)))) (RE.chr ' '))

/-- Pattern `[^\]]+`. -/
def reExtGrp : RE := rePlus (RE.cls (fun c => !(c == ']')))

/-- Pattern `\]`. -/
def reExtPost : RE := cat "]".data RE.eps

/-- Pattern `https?://[^\s]+`. -/
def reBareUrl : RE :=
  cat "http".data (RE.seq (reOpt (RE.chr 's'))
    (cat "://".data (rePlus (RE.cls (fun c => !(isPySpace c))))))

/-- Pattern `^\*+\s?` (MULTILINE). -/
def reLists : RE := RE.seq (rePlus (RE.chr '*')) (reOpt (RE.cls isPySpace))

/-- sub(r"^\*+\s?", "", MULTILINE). -/
def stepLists (bl : Bool) (l : List Char) : Option (List Char × List Char × List Char) :=
  if bl then (matchPlain reLists l).map (fun p => ([], p.1, p.2)) else none

/-- Pattern `__\w+__`. -/
def reMagic : RE :=
  cat "__".data (RE.seq (rePlus (RE.cls pyWordChar)) (cat "__".data RE.eps))

/-- Pattern `\s{2,}`. -/
def reWs2 : RE := RE.seq (RE.cls isPySpace) (rePlus (RE.cls isPySpace))

/-- sub(r"\s{2,}", " "). -/
def stepWs2 (_ : Bool) (l : List Char) : Option (List Char × List Char × List Char) :=
  (matchPlain reWs2 l).map (fun p => ([' '], p.1, p.2))

/-- Pattern `\s{1,}\.`. -/
def reWsDot : RE :=
  RE.seq (RE.cls isPySpace) (RE.seq (RE.star (RE.cls isPySpace)) (RE.chr '.'))

/-- sub(r"\s{1,}\.", "."). -/
def stepWsDot (_ : Bool) (l : List Char) : Option (List Char × List Char × List Char) :=
  (matchPlain reWsDot l).map (fun p => (['.'], p.1, p.2))

/-- utils.clean, lines 171-217: every substitution pass before template
expansion, in source order. -/
def preClean (text : String) : String :=
  let t1 := runSub stepBold text
  let t2 := runSub (stepRem reRef) t1
  let t3 := runSub (stepRem reBr) t2
  let t4 := pyReplace t3 "&nbsp;" " "
  let t5 := runSub (stepRem reFiles) t4
  let t6 := runSub (stepGrp reLink1Pre reLink1Grp reLink1Post) t5
  let t7 := runSub (stepGrp reLink2Pre reLink2Grp reLink1Post) t6
  let t8 := pyReplace (pyReplace t7 "[[" "") "]]" ""
  let t9 := runSub (stepRem reTable) t8
  let t10 := runSub stepHeading t9
  let t11 := runSub (stepRem reNamespaced) t10
  let t12 := runSub (stepGrp reExtPre reExtGrp reExtPost) t11
  let t13 := runSub (stepRem reBareUrl) t12
  let t14 := runSub stepLists t13
  let t15 := runSub (stepRem reMagic) t14
  pyReplace t15 "\x27\x27" ""

/-! ## Template handling (utils.transform and the two expansion passes) -/

/-- The locale rule tables imported from `scripts/lang` (not under src/).
Modelled from the spec: five mappings keyed by template name; the
"multi" table holds locale-defined formatting rules (the source applies
them with `eval`, which may itself raise, hence `Option` results).  The
"warning-skip" set only affects emitted warnings, never return values,
so it is omitted. -/
structure LocaleTables where
  ignored : List String
  multi : List (String × (List String → Option String))
  italic : List (String × String)
  other : List (String × String)

/-- The empty configuration (every template name unresolvable). -/
def emptyTables : LocaleTables :=
  { ignored := [], multi := [], italic := [], other := [] }

/-- Python `template.split("|")` (single-character separator, keeping
empty fields). -/
def splitPipe : List Char → List (List Char)
  | [] => [[]]
  | c :: cs =>
    if c == '|' then [] :: splitPipe cs
    else
      match splitPipe cs with
      | [] => [[c]]
      | p :: ps => (c :: p) :: ps

/-- The trimmed pipe-split parts of a template invocation:
`[p.strip() for p in template.split("|")]`. -/
def pyParts (template : String) : List String :=
  ((splitPipe template.data).map (fun l => String.mk l)).map pyStrip

/-- utils.transform (lines 258-308).  `none` models a raised exception:
`capitalize("")` raises `IndexError` when the template name is empty and
there are exactly 2 parts.  The `warn` calls only log; they do not affect
the result. -/
def transform (T : LocaleTables) (word template : String) : Option String :=
  let parts := pyParts template
  let tpl := parts.headD ""
  if T.ignored.contains tpl then some ""
  else if tpl == "w" then some (parts.getLastD "")
  else
    match List.lookup tpl T.multi with
    | some f => f parts
    | none =>
      match List.lookup tpl T.italic with
      | some lbl => some ("<i>(" ++ lbl ++ ")</i>")
      | none =>
        match List.lookup tpl T.other with
        | some rep => some rep
        | none =>
          if parts.length == 2 then
            (capitalize tpl).map (fun c => "<i>(" ++ c ++ ")</i>")
          else if 2 < parts.length then some ""
          else if tpl == "" then some ""
          else (capitalize tpl).map (fun c => "<i>(" ++ c ++ ")</i>")

/-- Pattern `{{[^{}]*}}` of the innermost-template pass. -/
def reTpl : RE :=
  cat ['\x7b', '\x7b']
    (RE.seq (RE.star (RE.cls (fun c => !(c == '\x7b') && !(c == '\x7d'))))
      (cat ['\x7d', '\x7d'] RE.eps))

/-- re.findall scanning for `{{[^{}]*}}`: left-to-right, non-overlapping. -/
def findTplScan : Nat → List Char → List (List Char)
  | 0, _ => []
  | Nat.succ _, [] => []
  | Nat.succ n, c :: cs =>
    match matchPlain reTpl (c :: cs) with
    | some p => p.1 :: findTplScan n p.2
    | none => findTplScan n cs

def findallTpl (l : List Char) : List (List Char) :=
  findTplScan (l.length + 1) l

/-- Keep the first occurrence of each element, dropping later duplicates
(the `seen`-set idiom of the source). -/
def dedupFirstGo {α : Type} [DecidableEq α] (seen : List α) : List α → List α
  | [] => []
  | d :: rest =>
    if d ∈ seen then dedupFirstGo seen rest else d :: dedupFirstGo (d :: seen) rest

def dedupFirst {α : Type} [DecidableEq α] (l : List α) : List α := dedupFirstGo [] l

/-- utils.clean lines 226-229: expand each distinct innermost template,
replacing all its occurrences (`set(re.findall(...))` iterated; a Python
set's iteration order is unspecified, modelled here as first-occurrence
order — the replacements are independent for brace-free outputs). -/
def nestedPass (T : LocaleTables) (word : String) (s : String) : Option String :=
  (dedupFirst (findallTpl s.data)).foldlM
    (fun acc tpl =>
      (transform T word ⟨(tpl.drop 2).take (tpl.length - 4)⟩).map
        (fun r => pyReplace acc ⟨tpl⟩ r))
    s

/-- The inner scan of utils.clean lines 237-245: collect the template
contents up to the first `}}` (or to the end of the string), returning
(contents, remainder after the `}}`). -/
def scanToClose : List Char → (List Char × List Char)
  | [] => ([], [])
  | '\x7d' :: '\x7d' :: rest => ([], rest)
  | c :: rest =>
    let p := scanToClose rest
    (c :: p.1, p.2)

/-- Split at the first `{{`: `some (before, after)` with
`text = before ++ "{{" ++ after`, or `none` when there is no `{{`. -/
def breakTpl : List Char → Option (List Char × List Char)
  | [] => none
  | c :: cs =>
    if c == '\x7b' && cs.headD ' ' == '\x7b' then some ([], cs.tail)
    else (breakTpl cs).map (fun p => (c :: p.1, p.2))

def countOpenBrace (l : List Char) : Nat := l.countP (fun c => c == '\x7b')

/-- utils.clean lines 232-249: the top-level `while "{{" in text` loop.
The fuel bounds the iteration count; when the configured tables keep
producing new `{{` the Python loop does not terminate, which is modelled
by `none` on fuel exhaustion. -/
def topLoop (T : LocaleTables) (word : String) : Nat → List Char → Option (List Char)
  | 0, text =>
    match breakTpl text with
    | none => some text
    | some _ => none
  | Nat.succ n, text =>
    match breakTpl text with
    | none => some text
    | some p =>
      let q := scanToClose p.2
      match transform T word ⟨q.1⟩ with
      | none => none
      | some tr => topLoop T word n (p.1 ++ tr.data ++ q.2)

/-- utils.clean (lines 153-255): the full cleanup pipeline.  `none`
models a raised exception (from `transform`) or a non-terminating
top-level loop. -/
def clean (T : LocaleTables) (word text : String) : Option String :=
  let t := preClean text
  match nestedPass T word t with
  | none => none
  | some t2 =>
    match topLoop T word (countOpenBrace t2.data + 1) t2.data with
    | none => none
    | some t3 => some (pyStrip (runSub stepWsDot (runSub stepWs2 ⟨t3⟩)))

/-! ## The extractor (src/scripts/get.py) -/

/-- One iteration body of the near-empty-definition pattern of
get.find_section_definitions: `(?:<i>)?\([\w ]+\)(?:</i>)?\.? ?\??…?`. -/
def reNearBody : RE :=
  RE.seq (reOpt (cat "<i>".data RE.eps))
    (RE.seq (RE.chr '(') (RE.seq (rePlus (RE.cls (fun c => pyWordChar c || c == ' ')))
      (RE.seq (RE.chr ')') (RE.seq (reOpt (cat "</i>".data RE.eps))
        (RE.seq (reOpt (RE.chr '.')) (RE.seq (reOpt (RE.chr ' '))
          (RE.seq (reOpt (RE.chr '?')) (reOpt (RE.chr '…')))))))))

/-- The anchored pattern `^((?:<i>)?\([\w ]+\)(?:</i>)?\.? ?\??…?)*$`. -/
def reNear : RE := RE.star reNearBody

/-- Anchored full match: some backtracking path consumes the whole input. -/
def reFullMatch (r : RE) (l : List Char) : Bool :=
  (matchRE (reFuel r l) r l).any (fun t => t.isEmpty)

/-- `pattern.match(d)` for the near-empty pattern (Python `$` also
matches just before a final newline). -/
def nearEmpty (s : String) : Bool :=
  reFullMatch reNear s.data ||
    (s.data.getLast? == some '\n' && reFullMatch reNear s.data.dropLast)

/-- A parsed section as exposed by the external wikitextparser library:
a title (absent for the lead section) and the items of each embedded
list.  Modelled from the spec: "Section: a titled subtree of a page's
wikitext ... `sublists` (ordered list of list-items)". -/
structure WtpSection where
  title : Option String
  lists : List (List String)
deriving DecidableEq

/-- get.find_sections (lines 138-145) applied to the already-parsed
section list: keep sections whose title is truthy (not None, not empty)
and whose left-stripped title starts with the locale's heading text
(`patterns[C.LOCALE]`, configuration not under src/, abstracted as
`pat`). -/
def find_sections (pat : String) (secs : List WtpSection) : List WtpSection :=
  secs.filter (fun sec =>
    match sec.title with
    | none => false
    | some t => !(t == "") && pyStartsWith (pyLStrip t) pat)

/-- get.find_section_definitions (lines 108-123): when the section has at
least one embedded list, clean each item of the first one and drop the
items matched by the near-empty pattern.  `none` models an exception
raised by `clean`. -/
def find_section_definitions (T : LocaleTables) (word : String) (sec : WtpSection) :
    Option (List String) :=
  match sec.lists with
  | [] => some []
  | items :: _ =>
    (items.mapM (fun d => clean T word (pyStrip d))).map
      (fun ds => ds.filter (fun d => !nearEmpty d))

/-- get.find_definitions (lines 93-105): concatenate the per-section
definitions; if empty return []; otherwise remove duplicates with the
seen-set idiom, keeping first occurrences. -/
def find_definitions (T : LocaleTables) (word : String) (secs : List WtpSection) :
    Option (List String) :=
  (secs.mapM (find_section_definitions T word)).map (fun ls =>
    let defs := ls.flatten
    if defs.isEmpty then [] else dedupFirst defs)

/-- get.parse_word (lines 178-193).  Modelled from the spec:
`find_pronunciation` and `find_genre` search the full wikitext with
locale-configured patterns (`C.PRONUNCIATION`, `C.GENRE` from
scripts/constants, not under src/) and return the first captured group or
the empty string — abstracted as `pron` and `genre`; `parseSecs` stands
for wikitextparser's sectioning of the page. -/
def parse_word (T : LocaleTables) (pat : String) (parseSecs : String → List WtpSection)
    (pron genre : String → String) (word code : String) (force : Bool) :
    Option (String × String × List String) :=
  let secs := find_sections pat (parseSecs code)
  match find_definitions T word secs with
  | none => none
  | some defs =>
    if !defs.isEmpty || force then some (pron code, genre code, defs)
    else some ("", "", defs)

/-! ## Helper lemmas about transform and the template passes -/

theorem capitalize_empty : capitalize "" = none := rfl

/-- The spec's "capitalized template name" (total; the spec does not
contemplate an empty name in the branches that use it). -/
def specCapitalize (s : String) : String :=
  match s.data with
  | [] => ""
  | c :: rest => ⟨c.toUpper :: rest⟩

theorem capitalize_of_ne (s : String) (h : s ≠ "") :
    capitalize s = some (specCapitalize s) := by
  obtain ⟨d⟩ := s
  cases d with
  | nil => exact absurd rfl h
  | cons c r => rfl

/-- A template name is unresolvable when it appears in none of the
locale's rule tables. -/
def unresolvable (T : LocaleTables) (name : String) : Prop :=
  name ∉ T.ignored ∧ List.lookup name T.multi = none ∧
  List.lookup name T.italic = none ∧ List.lookup name T.other = none

theorem transform_w_name (T : LocaleTables) (w template : String)
    (hc : ((pyParts template).headD "") ∉ T.ignored)
    (hn : (pyParts template).headD "" = "w") :
    transform T w template = some ((pyParts template).getLastD "") := by
  unfold transform
  rw [hn] at hc
  simp only [List.headD_eq_head?_getD] at hn
  simp [hn, hc]

theorem transform_tail (T : LocaleTables) (w template : String)
    (h1 : ((pyParts template).headD "") ∉ T.ignored)
    (h2 : ((pyParts template).headD "") ≠ "w")
    (hm : List.lookup ((pyParts template).headD "") T.multi = none)
    (hi : List.lookup ((pyParts template).headD "") T.italic = none)
    (ho : List.lookup ((pyParts template).headD "") T.other = none) :
    transform T w template =
      (if (pyParts template).length == 2 then
        (capitalize ((pyParts template).headD "")).map (fun c => "<i>(" ++ c ++ ")</i>")
      else if 2 < (pyParts template).length then some ""
      else if ((pyParts template).headD "") == "" then some ""
      else (capitalize ((pyParts template).headD "")).map
        (fun c => "<i>(" ++ c ++ ")</i>")) := by
  unfold transform
  simp only [List.headD_eq_head?_getD] at h1 h2 hm hi ho
  simp [h1, h2, hm, hi, ho]

theorem nestedPass_single (T : LocaleTables) (w s : String) (tpl : List Char) (out : String)
    (hfind : dedupFirst (findallTpl s.data) = [tpl])
    (htr : transform T w ⟨(tpl.drop 2).take (tpl.length - 4)⟩ = some out) :
    nestedPass T w s = some (pyReplace s ⟨tpl⟩ out) := by
  unfold nestedPass
  rw [hfind]
  simp [List.foldlM, htr]

theorem topLoop_no_tpl (T : LocaleTables) (w : String) (n : Nat) (l : List Char)
    (h : breakTpl l = none) : topLoop T w n l = some l := by
  cases n <;> simp [topLoop, h]

theorem topLoop_step (T : LocaleTables) (w : String) (n : Nat) (l p1 rest : List Char)
    (tr : String) (hb : breakTpl l = some (p1, rest))
    (ht : transform T w ⟨(scanToClose rest).1⟩ = some tr) :
    topLoop T w (n + 1) l = topLoop T w n (p1 ++ tr.data ++ (scanToClose rest).2) := by
  simp [topLoop, hb, ht]

theorem clean_steps (T : LocaleTables) (w text t2 : String) (t3 : List Char)
    (h1 : nestedPass T w (preClean text) = some t2)
    (h2 : topLoop T w (countOpenBrace t2.data + 1) t2.data = some t3) :
    clean T w text = some (pyStrip (runSub stepWsDot (runSub stepWs2 ⟨t3⟩))) := by
  unfold clean
  simp [h1, h2]

/-! ## Claims C1, C2, C3, C8, C10 -/

/-- C1: the spec claims `clean(word, text)` is total over every input
string, including a template with an empty name such as `{{|x}}`.  The
code is not: on `{{|x}}` the innermost-template pass calls
`transform(word, "|x")`, which reaches the exactly-2-parts branch with an
empty template name and calls `capitalize("")`, i.e. `""[0].capitalize()`,
raising `IndexError`.  The model evaluates the pipeline at that failing
input to `none` (= raised). -/
theorem c1_clean_raises_on_empty_template_name :
    clean emptyTables "foo" "\x7b\x7b|x\x7d\x7d" = none := by decide

/-- C2 counterexample: the claim states that every template invocation
resolves to a string by the first-match-wins order, with exactly 2 parts
yielding an italic parenthetical of the capitalized name.  For the
invocation with contents `|x` (empty name, 2 parts, no table match) the
code yields no string at all: `transform` raises `IndexError` inside
`capitalize("")`, modelled as `none`. -/
theorem c2_counterexample_two_parts_empty_name :
    transform emptyTables "foo" "|x" = none := by decide

/-- Modelled from the spec (claim C2, amended): the resolution order of
spec section 4.1 step 3 over the trimmed pipe-split parts, first match
wins — ignored-set, then name `w`, then the multi table, then the italic
table, then the other table, then exactly-2-parts italic parenthetical,
then more-than-2-parts empty, then capitalized italic parenthetical or
empty for an empty name — amended so that an exactly-2-parts invocation
whose name is empty (and matches no table) produces no result, since the
code raises there. -/
def transformSpec (T : LocaleTables) (parts : List String) : Option String :=
  let name := parts.headD ""
  if name ∈ T.ignored then some ""
  else if name = "w" then some (parts.getLastD "")
  else
    match List.lookup name T.multi with
    | some rule => rule parts
    | none =>
      match List.lookup name T.italic with
      | some lbl => some ("<i>(" ++ lbl ++ ")</i>")
      | none =>
        match List.lookup name T.other with
        | some rep => some rep
        | none =>
          if parts.length = 2 then
            if name = "" then none
            else some ("<i>(" ++ specCapitalize name ++ ")</i>")
          else if 2 < parts.length then some ""
          else if name = "" then some ""
          else some ("<i>(" ++ specCapitalize name ++ ")</i>")

/-- C2 (amended): `transform` resolves every template invocation by the
fixed first-match-wins order described by the spec over the trimmed
pipe-split parts, with the amendment that an exactly-2-parts invocation
with an empty unmatched name raises instead of producing a string. -/
theorem c2_transform_follows_resolution_order (T : LocaleTables) (w template : String) :
    transform T w template = transformSpec T (pyParts template) := by
  unfold transform transformSpec
  generalize pyParts template = parts
  simp only [List.headD_eq_head?_getD]
  generalize (parts.head?.getD "") = name
  by_cases h1 : name ∈ T.ignored
  · simp [h1]
  · by_cases h2 : name = "w"
    · simp [h1, h2]
    · cases hm : List.lookup name T.multi with
      | some f => simp [h1, h2, hm]
      | none =>
        cases hi : List.lookup name T.italic with
        | some lbl => simp [h1, h2, hm, hi]
        | none =>
          cases ho : List.lookup name T.other with
          | some rep => simp [h1, h2, hm, hi, ho]
          | none =>
            by_cases hn : name = ""
            · simp [h1, h2, hm, hi, ho, hn, capitalize_empty]
            · simp [h1, h2, hm, hi, ho, hn, capitalize_of_ne _ hn]

/-- C3: `clean` expands templates innermost-first; with `foo` and `bar`
unresolvable, `clean(word, "{{foo|{{bar}}|123}}")` first expands the
nested `{{bar}}` (to `<i>(Bar)</i>`) in the batch pass, after which the
remaining top-level template has 3 parts and maps to the empty string. -/
theorem c3_clean_innermost_first_three_parts (T : LocaleTables) (w : String)
    (hfoo : unresolvable T "foo") (hbar : unresolvable T "bar") :
    clean T w "\x7b\x7bfoo|\x7b\x7bbar\x7d\x7d|123\x7d\x7d" = some "" := by
  obtain ⟨hf1, hf2, hf3, hf4⟩ := hfoo
  obtain ⟨hb1, hb2, hb3, hb4⟩ := hbar
  have hnb : (pyParts "bar").headD "" = "bar" := by decide
  have htrb : transform T w "bar" = some "<i>(Bar)</i>" := by
    have h := transform_tail T w "bar" (by rw [hnb]; exact hb1) (by rw [hnb]; decide)
        (by rw [hnb]; exact hb2) (by rw [hnb]; exact hb3) (by rw [hnb]; exact hb4)
    rw [h]; decide
  have hno : (pyParts "foo|<i>(Bar)</i>|123").headD "" = "foo" := by decide
  have htro : transform T w "foo|<i>(Bar)</i>|123" = some "" := by
    have h := transform_tail T w "foo|<i>(Bar)</i>|123" (by rw [hno]; exact hf1)
        (by rw [hno]; decide) (by rw [hno]; exact hf2) (by rw [hno]; exact hf3)
        (by rw [hno]; exact hf4)
    rw [h]; decide
  have hpre : preClean "\x7b\x7bfoo|\x7b\x7bbar\x7d\x7d|123\x7d\x7d" =
      "\x7b\x7bfoo|\x7b\x7bbar\x7d\x7d|123\x7d\x7d" := by decide
  have hfind : dedupFirst (findallTpl ("\x7b\x7bfoo|\x7b\x7bbar\x7d\x7d|123\x7d\x7d" : String).data) =
      [("\x7b\x7bbar\x7d\x7d" : String).data] := by decide
  have heq : (⟨((("\x7b\x7bbar\x7d\x7d" : String).data.drop 2).take
      (("\x7b\x7bbar\x7d\x7d" : String).data.length - 4))⟩ : String) = "bar" := by decide
  have hnp : nestedPass T w "\x7b\x7bfoo|\x7b\x7bbar\x7d\x7d|123\x7d\x7d" =
      some (pyReplace "\x7b\x7bfoo|\x7b\x7bbar\x7d\x7d|123\x7d\x7d"
        ⟨("\x7b\x7bbar\x7d\x7d" : String).data⟩ "<i>(Bar)</i>") := by
    apply nestedPass_single T w _ _ _ hfind
    rw [heq]; exact htrb
  have hrep : pyReplace "\x7b\x7bfoo|\x7b\x7bbar\x7d\x7d|123\x7d\x7d"
      ⟨("\x7b\x7bbar\x7d\x7d" : String).data⟩ "<i>(Bar)</i>" =
      "\x7b\x7bfoo|<i>(Bar)</i>|123\x7d\x7d" := by decide
  rw [hrep] at hnp
  have hcnt : countOpenBrace ("\x7b\x7bfoo|<i>(Bar)</i>|123\x7d\x7d" : String).data = 2 := by
    decide
  have hb : breakTpl ("\x7b\x7bfoo|<i>(Bar)</i>|123\x7d\x7d" : String).data =
      some ([], ("foo|<i>(Bar)</i>|123\x7d\x7d" : String).data) := by decide
  have harg2 : (⟨(scanToClose ("foo|<i>(Bar)</i>|123\x7d\x7d" : String).data).1⟩ : String) =
      "foo|<i>(Bar)</i>|123" := by decide
  have htl : topLoop T w
      (countOpenBrace ("\x7b\x7bfoo|<i>(Bar)</i>|123\x7d\x7d" : String).data + 1)
      ("\x7b\x7bfoo|<i>(Bar)</i>|123\x7d\x7d" : String).data = some [] := by
    rw [hcnt]
    rw [topLoop_step T w 2 _ [] ("foo|<i>(Bar)</i>|123\x7d\x7d" : String).data "" hb
      (by rw [harg2]; exact htro)]
    have hmt : ([] ++ ("" : String).data ++
        (scanToClose ("foo|<i>(Bar)</i>|123\x7d\x7d" : String).data).2) = ([] : List Char) := by
      decide
    rw [hmt]
    exact topLoop_no_tpl T w 2 [] (by decide)
  have hfin := clean_steps T w "\x7b\x7bfoo|\x7b\x7bbar\x7d\x7d|123\x7d\x7d"
    "\x7b\x7bfoo|<i>(Bar)</i>|123\x7d\x7d" []
    (by rw [hpre]; exact hnp) htl
  rw [hfin]
  decide

/-- C3 witness: with the empty configuration both names are unresolvable
and the whole construct cleans to the empty string. -/
theorem c3_witness :
    clean emptyTables "word" "\x7b\x7bfoo|\x7b\x7bbar\x7d\x7d|123\x7d\x7d" = some "" :=
  c3_clean_innermost_first_three_parts emptyTables "word"
    ⟨by decide, rfl, rfl, rfl⟩ ⟨by decide, rfl, rfl, rfl⟩

/-- C8: for a template invocation whose (trimmed) name is `w` with at
least one argument, `transform` returns the last (trimmed) argument —
provided `w` is not in the locale's ignored set, which the code consults
first. -/
theorem c8_w_returns_last_argument (T : LocaleTables) (w template : String)
    (hw : ((pyParts template).headD "") ∉ T.ignored)
    (hname : (pyParts template).headD "" = "w")
    (hargs : 2 ≤ (pyParts template).length) :
    transform T w template = some ((pyParts template).getLastD "") :=
  transform_w_name T w template hw hname

/-- C8 witness: the two examples of the claim. -/
theorem c8_witness :
    transform emptyTables "foo" "w|ISO 639-3" = some "ISO 639-3" ∧
    transform emptyTables "test" "w|Gesse aphaca|Lathyrus aphaca" = some "Lathyrus aphaca" := by
  constructor
  · have h := c8_w_returns_last_argument emptyTables "foo" "w|ISO 639-3"
      (by decide) (by decide) (by decide)
    rw [h]; decide
  · have h := c8_w_returns_last_argument emptyTables "test" "w|Gesse aphaca|Lathyrus aphaca"
      (by decide) (by decide) (by decide)
    rw [h]; decide

/-- C10: a template invocation whose contents are exactly `w` (zero
arguments) is replaced by the string `w` itself — the last pipe-split
part is the name — rather than being dropped or italicized (provided `w`
is not in the ignored set, which the code checks first). -/
theorem c10_bare_w_replaced_by_w (T : LocaleTables) (w : String)
    (hw : ("w" : String) ∉ T.ignored) :
    clean T w "\x7b\x7bw\x7d\x7d" = some "w" := by
  have hname : (pyParts "w").headD "" = "w" := by decide
  have hc : ((pyParts "w").headD "") ∉ T.ignored := by rw [hname]; exact hw
  have htr0 := transform_w_name T w "w" hc hname
  have hlast : (pyParts "w").getLastD "" = "w" := by decide
  rw [hlast] at htr0
  have heq : (⟨((("\x7b\x7bw\x7d\x7d" : String).data.drop 2).take
      (("\x7b\x7bw\x7d\x7d" : String).data.length - 4))⟩ : String) = "w" := by decide
  have hfind : dedupFirst (findallTpl ("\x7b\x7bw\x7d\x7d" : String).data) =
      [("\x7b\x7bw\x7d\x7d" : String).data] := by decide
  have hnp : nestedPass T w "\x7b\x7bw\x7d\x7d" =
      some (pyReplace "\x7b\x7bw\x7d\x7d" ⟨("\x7b\x7bw\x7d\x7d" : String).data⟩ "w") := by
    apply nestedPass_single T w _ _ _ hfind
    rw [heq]; exact htr0
  have hrep : pyReplace "\x7b\x7bw\x7d\x7d" ⟨("\x7b\x7bw\x7d\x7d" : String).data⟩ "w" = "w" := by
    decide
  rw [hrep] at hnp
  have hpre : preClean "\x7b\x7bw\x7d\x7d" = "\x7b\x7bw\x7d\x7d" := by decide
  have hb : breakTpl ("w" : String).data = none := by decide
  have htl := topLoop_no_tpl T w (countOpenBrace ("w" : String).data + 1) ("w" : String).data hb
  have hfin := clean_steps T w "\x7b\x7bw\x7d\x7d" "w" ("w" : String).data
    (by rw [hpre]; exact hnp) htl
  rw [hfin]
  decide

/-- C10 witness: with the empty configuration. -/
theorem c10_witness : clean emptyTables "anyword" "\x7b\x7bw\x7d\x7d" = some "w" :=
  c10_bare_w_replaced_by_w emptyTables "anyword" (by decide)

/-! ## Claims C5, C6, C7, C9 (the extractor) -/

/-- C5: a parsed top-level section is selected exactly when it has a
title whose left-trimmed text starts with the locale's configured heading
text (for a non-empty configured heading; "after trimming" is the leading
trim that a starts-with check observes, which is what the code's
`lstrip()` does).  A missing title is never selected. -/
theorem c5_section_selected_iff_title_matches (pat : String) (secs : List WtpSection)
    (sec : WtpSection) (hp : pat ≠ "") :
    sec ∈ find_sections pat secs ↔
      sec ∈ secs ∧ ∃ t, sec.title = some t ∧ pyStartsWith (pyLStrip t) pat = true := by
  unfold find_sections
  rw [List.mem_filter]
  constructor
  · rintro ⟨hm, hf⟩
    refine ⟨hm, ?_⟩
    cases ht : sec.title with
    | none => rw [ht] at hf; simp at hf
    | some t =>
      rw [ht] at hf
      simp only [Bool.and_eq_true, Bool.not_eq_true'] at hf
      exact ⟨t, rfl, hf.2⟩
  · rintro ⟨hm, t, ht, hs⟩
    refine ⟨hm, ?_⟩
    rw [ht]
    simp only [Bool.and_eq_true, Bool.not_eq_true']
    refine ⟨?_, hs⟩
    rw [beq_eq_false_iff_ne]
    intro h0
    subst h0
    have hpd : pat.data ≠ [] := by
      intro hd
      apply hp
      cases pat with
      | mk d => cases hd; rfl
    cases hpat : pat.data with
    | nil => exact absurd hpat hpd
    | cons c cs =>
      rw [show pyLStrip "" = "" from rfl] at hs
      unfold pyStartsWith at hs
      rw [hpat] at hs
      simp [List.isPrefixOf] at hs

/-- C5 witness: a titled matching section is selected from a list that
also holds an untitled lead section. -/
theorem c5_witness :
    (⟨some " Heading fr", []⟩ : WtpSection) ∈
      find_sections "Heading" [⟨some " Heading fr", []⟩, ⟨none, []⟩] :=
  (c5_section_selected_iff_title_matches "Heading"
      [⟨some " Heading fr", []⟩, ⟨none, []⟩] ⟨some " Heading fr", []⟩ (by decide)).mpr
    ⟨by simp, " Heading fr", rfl, by decide⟩

/-- Modelled from the spec (claim C6): the subsequence of a list keeping
only the first occurrence of each string — keep the head and drop every
later element equal to it, recursively. -/
def specDedup {α : Type} [DecidableEq α] : List α → List α
  | [] => []
  | d :: rest => d :: specDedup (rest.filter (fun x => x != d))
termination_by l => l.length
decreasing_by
  simp only [List.length_cons]
  exact Nat.lt_succ_of_le (List.length_filter_le _ _)

theorem dedupFirstGo_eq {α : Type} [DecidableEq α] (l : List α) : ∀ seen : List α,
    dedupFirstGo seen l = specDedup (l.filter (fun x => !decide (x ∈ seen))) := by
  induction l with
  | nil => intro seen; simp [dedupFirstGo, specDedup]
  | cons x xs ih =>
    intro seen
    by_cases hx : x ∈ seen
    · rw [dedupFirstGo, if_pos hx, List.filter_cons]
      rw [show (!decide (x ∈ seen)) = false by simp [hx]]
      simp only [Bool.false_eq_true, if_false]
      exact ih seen
    · rw [dedupFirstGo, if_neg hx, List.filter_cons]
      rw [show (!decide (x ∈ seen)) = true by simp [hx]]
      simp only [if_true]
      rw [specDedup, ih (x :: seen), List.filter_filter]
      have hfun : (fun y => !decide (y ∈ x :: seen)) =
          (fun y => y != x && !decide (y ∈ seen)) := by
        funext y
        by_cases hy : y = x
        · subst hy; simp
        · simp [hy, List.mem_cons]
      rw [hfun]

theorem dedupFirst_eq_specDedup {α : Type} [DecidableEq α] (l : List α) :
    dedupFirst l = specDedup l := by
  unfold dedupFirst
  rw [dedupFirstGo_eq l []]
  congr 1
  simp

theorem mem_dedupFirstGo {α : Type} [DecidableEq α] {x : α} (l : List α) :
    ∀ seen : List α, x ∈ dedupFirstGo seen l → x ∈ l ∧ x ∉ seen := by
  induction l with
  | nil => intro seen h; cases h
  | cons y ys ih =>
    intro seen h
    rw [dedupFirstGo] at h
    by_cases hy : y ∈ seen
    · rw [if_pos hy] at h
      obtain ⟨h1, h2⟩ := ih seen h
      exact ⟨List.mem_cons_of_mem _ h1, h2⟩
    · rw [if_neg hy] at h
      rcases List.mem_cons.mp h with h | h
      · subst h; exact ⟨List.mem_cons_self _ _, hy⟩
      · obtain ⟨h1, h2⟩ := ih (y :: seen) h
        refine ⟨List.mem_cons_of_mem _ h1, fun hc => h2 (List.mem_cons_of_mem _ hc)⟩

theorem dedupFirstGo_nodup {α : Type} [DecidableEq α] (l : List α) :
    ∀ seen : List α, (dedupFirstGo seen l).Nodup := by
  induction l with
  | nil => intro seen; exact List.nodup_nil
  | cons y ys ih =>
    intro seen
    rw [dedupFirstGo]
    by_cases hy : y ∈ seen
    · rw [if_pos hy]; exact ih seen
    · rw [if_neg hy]
      refine List.Nodup.cons ?_ (ih (y :: seen))
      intro hc
      exact (mem_dedupFirstGo ys (y :: seen) hc).2 (List.mem_cons_self _ _)

theorem dedupFirstGo_sublist {α : Type} [DecidableEq α] (l : List α) :
    ∀ seen : List α, List.Sublist (dedupFirstGo seen l) l := by
  induction l with
  | nil => intro seen; exact List.Sublist.refl _
  | cons y ys ih =>
    intro seen
    rw [dedupFirstGo]
    by_cases hy : y ∈ seen
    · rw [if_pos hy]; exact (ih seen).cons _
    · rw [if_neg hy]; exact (ih (y :: seen)).cons₂ _

/-- C6: the list returned by `find_definitions` is exactly the
subsequence of the concatenated per-section definitions keeping only the
first occurrence of each string (`specDedup`, written from the claim's
words); in particular it has no two equal strings and is a subsequence
(first-seen order preserved). -/
theorem c6_find_definitions_dedup (T : LocaleTables) (w : String) (secs : List WtpSection)
    (ds : List (List String)) (L : List String)
    (hm : secs.mapM (find_section_definitions T w) = some ds)
    (hL : find_definitions T w secs = some L) :
    L = specDedup ds.flatten ∧ L.Nodup ∧ List.Sublist L ds.flatten := by
  unfold find_definitions at hL
  rw [hm] at hL
  simp only [Option.map_some', Option.some.injEq] at hL
  have hL' : L = dedupFirst ds.flatten := by
    by_cases he : ds.flatten.isEmpty
    · have h0 : ds.flatten = [] := List.isEmpty_iff.mp he
      rw [← hL, h0]
      simp [dedupFirst, dedupFirstGo]
    · rw [← hL]
      simp [he]
  subst hL'
  refine ⟨dedupFirst_eq_specDedup _, dedupFirstGo_nodup _ _, dedupFirstGo_sublist _ _⟩

/-- C6 witness: post-clean definitions `["a", "b", "a"]` yield
`["a", "b"]`. -/
theorem c6_witness :
    find_definitions emptyTables "w"
        [⟨some "T", [["a", "b"]]⟩, ⟨some "U", [["a"]]⟩] = some ["a", "b"] ∧
    (["a", "b"] : List String).Nodup := by
  have h := c6_find_definitions_dedup emptyTables "w"
    [⟨some "T", [["a", "b"]]⟩, ⟨some "U", [["a"]]⟩] [["a", "b"], ["a"]] ["a", "b"]
    (by decide) (by decide)
  exact ⟨by decide, h.2.1⟩

/-- C7: every definition in the output of `find_section_definitions` is
non-empty and does not match the near-empty pattern (a cleaned item that
is empty, or consists solely of parenthetical italic tags with optional
trailing punctuation/ellipsis, is filtered out). -/
theorem c7_output_never_near_empty (T : LocaleTables) (w : String) (sec : WtpSection)
    (L : List String) (hm : find_section_definitions T w sec = some L) :
    ∀ d ∈ L, nearEmpty d = false ∧ d ≠ "" := by
  intro d hd
  unfold find_section_definitions at hm
  cases hl : sec.lists with
  | nil =>
    rw [hl] at hm
    simp only [Option.some.injEq] at hm
    subst hm
    cases hd
  | cons items rest =>
    rw [hl] at hm
    dsimp only at hm
    cases hmm : items.mapM (fun d => clean T w (pyStrip d)) with
    | none => rw [hmm] at hm; simp at hm
    | some ds =>
      rw [hmm] at hm
      simp only [Option.map_some', Option.some.injEq] at hm
      subst hm
      rw [List.mem_filter] at hd
      have hne : nearEmpty d = false := by simpa using hd.2
      refine ⟨hne, ?_⟩
      intro h0
      rw [h0, show nearEmpty "" = true from by decide] at hne
      cases hne

/-- C7 witness: the near-empty item is filtered out, the real one is
kept and is non-empty. -/
theorem c7_witness :
    find_section_definitions emptyTables "w"
        ⟨some "T", [["<i>(Poésie)</i> …", "x y"]]⟩ = some ["x y"] ∧
    nearEmpty "x y" = false ∧ "x y" ≠ "" := by
  refine ⟨by decide, ?_⟩
  exact c7_output_never_near_empty emptyTables "w"
    ⟨some "T", [["<i>(Poésie)</i> …", "x y"]]⟩ ["x y"] (by decide) "x y" (by simp)

/-- C9: `parse_word` computes pronunciation and gender from the full
wikitext exactly when the definitions list is non-empty or the force
flag is set; with no definitions and force unset it returns
`("", "", [])`. -/
theorem c9_parse_word_orchestration (T : LocaleTables) (pat : String)
    (parseSecs : String → List WtpSection) (pron genre : String → String)
    (w code : String) (force : Bool) (defs : List String)
    (h : find_definitions T w (find_sections pat (parseSecs code)) = some defs) :
    (defs ≠ [] ∨ force = true →
      parse_word T pat parseSecs pron genre w code force =
        some (pron code, genre code, defs)) ∧
    (defs = [] → force = false →
      parse_word T pat parseSecs pron genre w code force = some ("", "", [])) := by
  simp only [parse_word]
  rw [h]
  constructor
  · intro hc
    have hb : (!defs.isEmpty || force) = true := by
      rcases hc with h1 | h1
      · have h2 : defs.isEmpty = false := by
          cases defs with
          | nil => exact absurd rfl h1
          | cons a as => rfl
        simp [h2]
      · simp [h1]
    simp [hb]
  · intro h1 h2
    subst h1
    subst h2
    simp

/-- C9 witness: an empty page with force unset returns
`("", "", [])`. -/
theorem c9_witness :
    parse_word emptyTables "==" (fun _ => []) (fun _ => "p") (fun _ => "g")
      "cat" "code" false = some ("", "", []) := by
  have h := c9_parse_word_orchestration emptyTables "==" (fun _ => [])
    (fun _ => "p") (fun _ => "g") "cat" "code" false [] (by decide)
  exact h.2 rfl rfl

theorem flatMap_ne {α β : Type} {l : List α} {f : α → List β} (h : l.flatMap f ≠ []) :
    ∃ x ∈ l, f x ≠ [] := by
  by_contra hc
  push_neg at hc
  exact h (List.flatMap_eq_nil_iff.mpr hc)

theorem matchRE_chr_mem {n : Nat} {c : Char} {t u : List Char}
    (h : u ∈ matchRE n (RE.chr c) t) : t = c :: u := by
  cases n with
  | zero => cases h
  | succ m =>
    cases t with
    | nil => cases h
    | cons d ds =>
      simp only [matchRE] at h
      by_cases hd : d == c
      · rw [if_pos hd] at h
        have hu : u = ds := List.mem_singleton.mp h
        subst hu
        rw [show d = c from beq_iff_eq.mp hd]
      · rw [if_neg hd] at h
        cases h

theorem matchRE_cls_mem {n : Nat} {p : Char → Bool} {t u : List Char}
    (h : u ∈ matchRE n (RE.cls p) t) : ∃ d, t = d :: u ∧ p d = true := by
  cases n with
  | zero => cases h
  | succ m =>
    cases t with
    | nil => cases h
    | cons d ds =>
      simp only [matchRE] at h
      by_cases hd : p d
      · rw [if_pos hd] at h
        have hu : u = ds := List.mem_singleton.mp h
        subst hu
        exact ⟨d, rfl, hd⟩
      · rw [if_neg hd] at h
        cases h

theorem matchRE_seq_destruct {n : Nat} {a b : RE} {t : List Char}
    (h : matchRE n (RE.seq a b) t ≠ []) :
    ∃ m u, u ∈ matchRE m a t ∧ matchRE m b u ≠ [] := by
  cases n with
  | zero => exact absurd rfl h
  | succ m =>
    simp only [matchRE] at h
    obtain ⟨u, hu, hb⟩ := flatMap_ne h
    exact ⟨m, u, hu, hb⟩

theorem matchRE_cat_forces (l : List Char) : ∀ (k : RE) (n : Nat) (t : List Char),
    matchRE n (cat l k) t ≠ [] → l.isPrefixOf t = true := by
  induction l with
  | nil => intro k n t _; cases t <;> rfl
  | cons c cs ih =>
    intro k n t h
    rw [cat] at h
    obtain ⟨m, u, hu, hb⟩ := matchRE_seq_destruct h
    have ht : t = c :: u := matchRE_chr_mem hu
    subst ht
    have hpre := ih k m u hb
    simp [List.isPrefixOf_cons₂, hpre]

theorem matchRE_cat_split (l : List Char) : ∀ (k : RE) (n : Nat) (t : List Char),
    matchRE n (cat l k) t ≠ [] → ∃ m rest, t = l ++ rest ∧ matchRE m k rest ≠ [] := by
  induction l with
  | nil => intro k n t h; exact ⟨n, t, rfl, h⟩
  | cons c cs ih =>
    intro k n t h
    rw [cat] at h
    obtain ⟨m, u, hu, hb⟩ := matchRE_seq_destruct h
    have ht : t = c :: u := matchRE_chr_mem hu
    subst ht
    obtain ⟨m2, rest, hr, hk⟩ := ih k m u hb
    exact ⟨m2, rest, by rw [hr]; rfl, hk⟩

theorem matchRE_star_cls_mem {n : Nat} {p : Char → Bool} {t u : List Char}
    (hu : u ∈ matchRE n (RE.star (RE.cls p)) t) :
    u = t ∨ ∃ d ds, t = d :: ds ∧ p d = true := by
  cases n with
  | zero => cases hu
  | succ m =>
    simp only [matchRE] at hu
    rcases List.mem_append.mp hu with h | h
    · obtain ⟨v, hv, _⟩ := List.mem_flatMap.mp h
      have hv2 := (List.mem_filter.mp hv).1
      obtain ⟨d, hd, hp⟩ := matchRE_cls_mem hv2
      exact Or.inr ⟨d, v, hd, hp⟩
    · exact Or.inl (List.mem_singleton.mp h)

theorem matchPlain_src_ne {r : RE} {t : List Char} (h : matchPlain r t ≠ none) :
    matchRE (reFuel r t) r t ≠ [] := by
  intro hz
  apply h
  unfold matchPlain
  rw [hz]
  rfl

theorem matchCap3_src_ne {a g b : RE} {t : List Char} (h : matchCap3 a g b t ≠ none) :
    matchRE (reFuel (RE.seq a (RE.seq g b)) t) a t ≠ [] := by
  intro hz
  apply h
  simp only [matchCap3]
  rw [hz]
  rfl

def bolPos (s t : List Char) : Prop := t = s ∨ ∃ u, u ++ '\n' :: t = s

theorem subScan_id (step : Bool → List Char → Option (List Char × List Char × List Char))
    (s : List Char)
    (hf : ∀ t, t <:+ s → step false t = none)
    (ht : ∀ t, bolPos s t → step true t = none) :
    ∀ (t : List Char), t <:+ s → ∀ (n : Nat) (b : Bool), (b = true → bolPos s t) →
      subScan n step b t = t := by
  intro t
  induction t with
  | nil =>
    intro _ n b _
    cases n <;> rfl
  | cons c cs ih =>
    intro hsuf n b hbol
    cases n with
    | zero => rfl
    | succ m =>
      have hstep : step b (c :: cs) = none := by
        cases b with
        | false => exact hf _ hsuf
        | true => exact ht _ (hbol rfl)
      rw [subScan, hstep]
      dsimp only
      congr 1
      apply ih ((List.suffix_cons c cs).trans hsuf) m (c == '\n')
      intro hb
      have hc : c = '\n' := beq_iff_eq.mp hb
      subst hc
      obtain ⟨u, hu⟩ := hsuf
      exact Or.inr ⟨u, hu⟩

def hasSub (l pat : List Char) : Bool := l.tails.any (fun t => pat.isPrefixOf t)

theorem hasSub_intro {l t pat : List Char} (hsuf : t <:+ l) (hp : pat.isPrefixOf t = true) :
    hasSub l pat = true := by
  unfold hasSub
  rw [List.any_eq_true]
  exact ⟨t, (List.mem_tails _ _).mpr hsuf, hp⟩

def hasTwoWs (l : List Char) : Bool :=
  l.tails.any (fun t =>
    match t with
    | c :: d :: _ => isPySpace c && isPySpace d
    | _ => false)

theorem hasTwoWs_intro {s t : List Char} {c d : Char} {rest : List Char}
    (hsuf : t <:+ s) (ht : t = c :: d :: rest) (hc : isPySpace c = true)
    (hd : isPySpace d = true) : hasTwoWs s = true := by
  unfold hasTwoWs
  rw [List.any_eq_true]
  refine ⟨t, (List.mem_tails _ _).mpr hsuf, ?_⟩
  rw [ht]
  simp [hc, hd]

def hasWsDot (l : List Char) : Bool :=
  l.tails.any (fun t =>
    match t with
    | c :: d :: _ => isPySpace c && d == '.'
    | _ => false)

theorem hasWsDot_intro {s t : List Char} {c d : Char} {rest : List Char}
    (hsuf : t <:+ s) (ht : t = c :: d :: rest) (hc : isPySpace c = true)
    (hd : d = '.') : hasWsDot s = true := by
  unfold hasWsDot
  rw [List.any_eq_true]
  refine ⟨t, (List.mem_tails _ _).mpr hsuf, ?_⟩
  rw [ht, hd]
  simp [hc]

theorem bolPos_suffix {s t : List Char} (h : bolPos s t) : t <:+ s := by
  rcases h with h | ⟨u, hu⟩
  · subst h; exact List.suffix_refl _
  · exact ⟨u ++ ['\n'], by simpa using hu⟩

theorem runSub_id (step : Bool → List Char → Option (List Char × List Char × List Char))
    (s : String)
    (hf : ∀ t, t <:+ s.data → step false t = none)
    (ht : ∀ t, bolPos s.data t → step true t = none) :
    runSub step s = s := by
  unfold runSub
  rw [subScan_id step s.data hf ht s.data (List.suffix_refl _) _ true (fun _ => Or.inl rfl)]

theorem runSub_id_all (step : Bool → List Char → Option (List Char × List Char × List Char))
    (s : String) (h : ∀ b t, t <:+ s.data → step b t = none) : runSub step s = s :=
  runSub_id step s (fun t hsuf => h false t hsuf)
    (fun t hb => h true t (bolPos_suffix hb))

theorem hasSub_mono {l t pat : List Char} (hsuf : t <:+ l) (h : hasSub l pat = false) :
    hasSub t pat = false := by
  by_contra hc
  rw [Bool.not_eq_false] at hc
  unfold hasSub at hc
  rw [List.any_eq_true] at hc
  obtain ⟨u, hu, hp⟩ := hc
  rw [hasSub_intro (((List.mem_tails _ _).mp hu).trans hsuf) hp] at h
  cases h

theorem pyReplace_id (s pat rep : String) (h : hasSub s.data pat.data = false) :
    pyReplace s pat rep = s := by
  have hstep : ∀ (b : Bool) (t : List Char), t <:+ s.data →
      stepLit pat.data rep.data b t = none := by
    intro b t hsuf
    have hp : pat.data.isPrefixOf t = false := by
      by_contra hc
      rw [Bool.not_eq_false] at hc
      rw [hasSub_intro hsuf hc] at h
      cases h
    simp [stepLit, hp]
  unfold pyReplace
  rw [subScan_id (stepLit pat.data rep.data) s.data (fun t hsuf => hstep false t hsuf)
    (fun t hb => hstep true t (bolPos_suffix hb)) s.data (List.suffix_refl _) _ true
    (fun _ => Or.inl rfl)]

theorem runSub_stepRem_cat_id (lit : List Char) (k : RE) (s : String)
    (h : hasSub s.data lit = false) : runSub (stepRem (cat lit k)) s = s := by
  apply runSub_id_all
  intro b t hsuf
  by_contra hne
  have h1 : matchPlain (cat lit k) t ≠ none := by
    intro hz
    apply hne
    unfold stepRem
    rw [hz]
    rfl
  have h2 := matchPlain_src_ne h1
  have h3 := matchRE_cat_forces lit k _ t h2
  rw [hasSub_intro hsuf h3] at h
  cases h

theorem runSub_stepGrp_cat_id (lit : List Char) (k g b2 : RE) (s : String)
    (h : hasSub s.data lit = false) : runSub (stepGrp (cat lit k) g b2) s = s := by
  apply runSub_id_all
  intro b t hsuf
  by_contra hne
  have h1 : matchCap3 (cat lit k) g b2 t ≠ none := by
    intro hz
    apply hne
    unfold stepGrp
    rw [hz]
    rfl
  have h2 := matchCap3_src_ne h1
  have h3 := matchRE_cat_forces lit _ _ t h2
  rw [hasSub_intro hsuf h3] at h
  cases h

theorem runSub_stepHeading_id (s : String)
    (hhead : (s.data.headD 'x' == '=') = false)
    (hnl : hasSub s.data ['\n', '='] = false) : runSub stepHeading s = s := by
  apply runSub_id
  · intro t _
    rfl
  · intro t hb
    by_contra hne
    have h1 : matchCap3 reHeadPre reHeadGrp reHeadPost t ≠ none := by
      intro hz
      apply hne
      unfold stepHeading
      rw [if_pos rfl, hz]
      rfl
    have h2 := matchCap3_src_ne h1
    rw [show reHeadPre = RE.seq (RE.seq (RE.chr '=') (RE.star (RE.chr '=')))
      (reOpt (RE.cls isPySpace)) from rfl] at h2
    obtain ⟨m, u, hu, _⟩ := matchRE_seq_destruct h2
    obtain ⟨m2, v, hv, _⟩ := matchRE_seq_destruct (List.ne_nil_of_mem hu)
    have ht' : t = '=' :: v := matchRE_chr_mem hv
    rcases hb with hb | ⟨u2, hu2⟩
    · rw [← hb, ht'] at hhead
      simp at hhead
    · have hsuf : ('\n' :: t) <:+ s.data := ⟨u2, hu2⟩
      have hp : (['\n', '='] : List Char).isPrefixOf ('\n' :: t) = true := by
        rw [ht']
        simp [List.isPrefixOf_cons₂, List.isPrefixOf]
      rw [hasSub_intro hsuf hp] at hnl
      cases hnl

theorem runSub_stepLists_id (s : String)
    (hhead : (s.data.headD 'x' == '*') = false)
    (hnl : hasSub s.data ['\n', '*'] = false) : runSub stepLists s = s := by
  apply runSub_id
  · intro t _
    rfl
  · intro t hb
    by_contra hne
    have h1 : matchPlain reLists t ≠ none := by
      intro hz
      apply hne
      unfold stepLists
      rw [if_pos rfl, hz]
      rfl
    have h2 := matchPlain_src_ne h1
    rw [show reLists = RE.seq (RE.seq (RE.chr '*') (RE.star (RE.chr '*')))
      (reOpt (RE.cls isPySpace)) from rfl] at h2
    obtain ⟨m, u, hu, _⟩ := matchRE_seq_destruct h2
    obtain ⟨m2, v, hv, _⟩ := matchRE_seq_destruct (List.ne_nil_of_mem hu)
    have ht' : t = '*' :: v := matchRE_chr_mem hv
    rcases hb with hb | ⟨u2, hu2⟩
    · rw [← hb, ht'] at hhead
      simp at hhead
    · have hsuf : ('\n' :: t) <:+ s.data := ⟨u2, hu2⟩
      have hp : (['\n', '*'] : List Char).isPrefixOf ('\n' :: t) = true := by
        rw [ht']
        simp [List.isPrefixOf_cons₂, List.isPrefixOf]
      rw [hasSub_intro hsuf hp] at hnl
      cases hnl

theorem runSub_stepWs2_id (s : String) (h : hasTwoWs s.data = false) :
    runSub stepWs2 s = s := by
  apply runSub_id_all
  intro b t hsuf
  by_contra hne
  have h1 : matchPlain reWs2 t ≠ none := by
    intro hz
    apply hne
    unfold stepWs2
    rw [hz]
    rfl
  have h2 := matchPlain_src_ne h1
  rw [show reWs2 = RE.seq (RE.cls isPySpace)
    (RE.seq (RE.cls isPySpace) (RE.star (RE.cls isPySpace))) from rfl] at h2
  obtain ⟨m, u, hu, hrest⟩ := matchRE_seq_destruct h2
  obtain ⟨c, htc, hpc⟩ := matchRE_cls_mem hu
  obtain ⟨m2, v, hv, _⟩ := matchRE_seq_destruct hrest
  obtain ⟨d, htd, hpd⟩ := matchRE_cls_mem hv
  rw [hasTwoWs_intro hsuf (by rw [htc, htd]) hpc hpd] at h
  cases h

theorem runSub_stepWsDot_id (s : String) (h2 : hasTwoWs s.data = false)
    (h3 : hasWsDot s.data = false) : runSub stepWsDot s = s := by
  apply runSub_id_all
  intro b t hsuf
  by_contra hne
  have h1 : matchPlain reWsDot t ≠ none := by
    intro hz
    apply hne
    unfold stepWsDot
    rw [hz]
    rfl
  have hm := matchPlain_src_ne h1
  rw [show reWsDot = RE.seq (RE.cls isPySpace)
    (RE.seq (RE.star (RE.cls isPySpace)) (RE.chr '.')) from rfl] at hm
  obtain ⟨m, u, hu, hrest⟩ := matchRE_seq_destruct hm
  obtain ⟨c, htc, hpc⟩ := matchRE_cls_mem hu
  obtain ⟨m2, v, hv, hdot⟩ := matchRE_seq_destruct hrest
  obtain ⟨w, hw⟩ := List.exists_mem_of_ne_nil _ hdot
  have hvs : v = '.' :: w := matchRE_chr_mem hw
  rcases matchRE_star_cls_mem hv with he | ⟨d, ds, hud, hpd⟩
  · rw [hasWsDot_intro hsuf (by rw [htc, ← he, hvs]) hpc rfl] at h3
    cases h3
  · rw [hasTwoWs_intro hsuf (by rw [htc, hud]) hpc hpd] at h2
    cases h2

theorem runSub_stepBareUrl_id (s : String)
    (h1 : hasSub s.data ("http://".data) = false)
    (h2 : hasSub s.data ("https://".data) = false) :
    runSub (stepRem reBareUrl) s = s := by
  apply runSub_id_all
  intro b t hsuf
  by_contra hne
  have hp : matchPlain reBareUrl t ≠ none := by
    intro hz
    apply hne
    unfold stepRem
    rw [hz]
    rfl
  have hm := matchPlain_src_ne hp
  rw [show reBareUrl = cat "http".data (RE.seq (reOpt (RE.chr 's'))
    (cat "://".data (rePlus (RE.cls (fun c => !(isPySpace c)))))) from rfl] at hm
  obtain ⟨m, rest, hsplit, hrem⟩ := matchRE_cat_split _ _ _ _ hm
  obtain ⟨m2, u, hu, hrest2⟩ := matchRE_seq_destruct hrem
  cases m2 with
  | zero => cases hu
  | succ m3 =>
    rw [show reOpt (RE.chr 's') = RE.alt (RE.chr 's') RE.eps from rfl] at hu
    simp only [matchRE] at hu
    rcases List.mem_append.mp hu with hs | he
    · have hrs : rest = 's' :: u := matchRE_chr_mem hs
      have hpre := matchRE_cat_forces _ _ _ _ hrest2
      obtain ⟨v, hv⟩ := List.isPrefixOf_iff_prefix.mp hpre
      have htfull : t = "https://".data ++ v := by
        rw [hsplit, hrs, ← hv]
        rfl
      have hfin : ("https://".data).isPrefixOf t = true := by
        rw [htfull]
        exact List.isPrefixOf_iff_prefix.mpr (List.prefix_append _ _)
      rw [hasSub_intro hsuf hfin] at h2
      cases h2
    · cases m3 with
      | zero => cases he
      | succ m4 =>
        have hue : u = rest := by
          simpa only [matchRE, List.mem_singleton] using he
        subst hue
        have hpre := matchRE_cat_forces _ _ _ _ hrest2
        obtain ⟨v, hv⟩ := List.isPrefixOf_iff_prefix.mp hpre
        have htfull : t = "http://".data ++ v := by
          rw [hsplit, ← hv]
          rfl
        have hfin : ("http://".data).isPrefixOf t = true := by
          rw [htfull]
          exact List.isPrefixOf_iff_prefix.mpr (List.prefix_append _ _)
        rw [hasSub_intro hsuf hfin] at h1
        cases h1

theorem pyLStripL_id {l : List Char} (h : isPySpace (l.headD 'x') = false) :
    pyLStripL l = l := by
  cases l with
  | nil => rfl
  | cons c cs =>
    unfold pyLStripL
    rw [List.dropWhile_cons, if_neg]
    rw [show (c :: cs).headD 'x' = c from rfl] at h
    simp [h]

theorem pyStrip_id (s : String) (h1 : isPySpace (s.data.headD 'x') = false)
    (h2 : isPySpace (s.data.reverse.headD 'x') = false) : pyStrip s = s := by
  unfold pyStrip pyStripL pyRStripL
  rw [pyLStripL_id h1]
  rw [show s.data.reverse.dropWhile isPySpace = pyLStripL s.data.reverse from rfl]
  rw [pyLStripL_id h2, List.reverse_reverse]

theorem breakTpl_none {l : List Char} (h : hasSub l ['\x7b', '\x7b'] = false) :
    breakTpl l = none := by
  induction l with
  | nil => rfl
  | cons c cs ih =>
    have hcs := hasSub_mono (List.suffix_cons c cs) h
    rw [breakTpl]
    rw [if_neg, ih hcs]
    · rfl
    · intro hcc
      rw [Bool.and_eq_true] at hcc
      obtain ⟨hc1, hc2⟩ := hcc
      have hc1' : c = '\x7b' := beq_iff_eq.mp hc1
      cases cs with
      | nil => simp at hc2
      | cons d ds =>
        have hd : d = '\x7b' := beq_iff_eq.mp hc2
        subst hc1'
        subst hd
        have : (['\x7b', '\x7b'] : List Char).isPrefixOf ('\x7b' :: '\x7b' :: ds) = true := by
          simp [List.isPrefixOf_cons₂, List.isPrefixOf]
        rw [hasSub_intro (List.suffix_refl _) this] at h
        cases h

theorem findTplScan_nil {l : List Char} (h : hasSub l ['\x7b', '\x7b'] = false) :
    ∀ n, findTplScan n l = [] := by
  induction l with
  | nil => intro n; cases n <;> rfl
  | cons c cs ih =>
    intro n
    cases n with
    | zero => rfl
    | succ m =>
      have hm : matchPlain reTpl (c :: cs) = none := by
        by_contra hne
        have h2 := matchPlain_src_ne hne
        have h3 := matchRE_cat_forces _ _ _ _ h2
        rw [hasSub_intro (List.suffix_refl _) h3] at h
        cases h
      rw [findTplScan, hm]
      exact ih (hasSub_mono (List.suffix_cons c cs) h) m

theorem nestedPass_id (T : LocaleTables) (w : String) (s : String)
    (h : hasSub s.data ['\x7b', '\x7b'] = false) : nestedPass T w s = some s := by
  unfold nestedPass findallTpl
  rw [findTplScan_nil h]
  rfl

/-- Fully-cleaned predicate used for claim C4. -/
def noMarkup (s : String) : Bool :=
  let l := s.data
  !(hasSub l [qt, qt]) && !(hasSub l "<ref".data) && !(hasSub l "<br".data) &&
  !(hasSub l "&nbsp;".data) && !(hasSub l "[[".data) && !(hasSub l "]]".data) &&
  !(hasSub l ['\x7b', '|']) &&
  !(l.headD 'x' == '=') && !(hasSub l ['\n', '=']) &&
  !(hasSub l "[http".data) && !(hasSub l "http://".data) && !(hasSub l "https://".data) &&
  !(l.headD 'x' == '*') && !(hasSub l ['\n', '*']) &&
  !(hasSub l "__".data) && !(hasSub l ['\x7b', '\x7b']) &&
  !(hasTwoWs l) && !(hasWsDot l) &&
  !(isPySpace (l.headD 'x')) && !(isPySpace (l.reverse.headD 'x'))

theorem clean_fixed (T : LocaleTables) (w s : String) (h : noMarkup s = true) :
    clean T w s = some s := by
  unfold noMarkup at h
  simp only [Bool.and_eq_true, Bool.not_eq_true'] at h
  obtain ⟨⟨⟨⟨⟨⟨⟨⟨⟨⟨⟨⟨⟨⟨⟨⟨⟨⟨⟨h1, h2⟩, h3⟩, h4⟩, h5⟩, h6⟩, h7⟩, h8⟩, h9⟩, h10⟩, h11⟩, h12⟩, h13⟩, h14⟩, h15⟩, h16⟩, h17⟩, h18⟩, h19⟩, h20⟩ := h
  have e1 : runSub stepBold s = s :=
    runSub_stepGrp_cat_id [qt, qt] (reOpt (RE.chr qt)) reBoldGrp reBoldPre s h1
  have e2 : runSub (stepRem reRef) s = s := runSub_stepRem_cat_id "<ref".data _ s h2
  have e3 : runSub (stepRem reBr) s = s := runSub_stepRem_cat_id "<br".data _ s h3
  have e4 : pyReplace s "&nbsp;" " " = s := pyReplace_id s "&nbsp;" " " h4
  have e5 : runSub (stepRem reFiles) s = s := runSub_stepRem_cat_id "[[".data _ s h5
  have e6 : runSub (stepGrp reLink1Pre reLink1Grp reLink1Post) s = s :=
    runSub_stepGrp_cat_id "[[".data RE.eps reLink1Grp reLink1Post s h5
  have e7 : runSub (stepGrp reLink2Pre reLink2Grp reLink1Post) s = s :=
    runSub_stepGrp_cat_id "[[".data _ reLink2Grp reLink1Post s h5
  have e8a : pyReplace s "[[" "" = s := pyReplace_id s "[[" "" h5
  have e8b : pyReplace s "]]" "" = s := pyReplace_id s "]]" "" h6
  have e9 : runSub (stepRem reTable) s = s := runSub_stepRem_cat_id ['\x7b', '|'] _ s h7
  have e10 : runSub stepHeading s = s := runSub_stepHeading_id s h8 h9
  have e11 : runSub (stepRem reNamespaced) s = s := runSub_stepRem_cat_id "[[".data _ s h5
  have e12 : runSub (stepGrp reExtPre reExtGrp reExtPost) s = s :=
    runSub_stepGrp_cat_id "[http".data _ reExtGrp reExtPost s h10
  have e13 : runSub (stepRem reBareUrl) s = s := runSub_stepBareUrl_id s h11 h12
  have e14 : runSub stepLists s = s := runSub_stepLists_id s h13 h14
  have e15 : runSub (stepRem reMagic) s = s := runSub_stepRem_cat_id "__".data _ s h15
  have e16 : pyReplace s "\x27\x27" "" = s := pyReplace_id s "\x27\x27" "" h1
  have f1 := e1
  have f2 := (congrArg (runSub (stepRem reRef)) f1).trans e2
  have f3 := (congrArg (runSub (stepRem reBr)) f2).trans e3
  have f4 := (congrArg (fun z => pyReplace z "&nbsp;" " ") f3).trans e4
  have f5 := (congrArg (runSub (stepRem reFiles)) f4).trans e5
  have f6 := (congrArg (runSub (stepGrp reLink1Pre reLink1Grp reLink1Post)) f5).trans e6
  have f7 := (congrArg (runSub (stepGrp reLink2Pre reLink2Grp reLink1Post)) f6).trans e7
  have f8a := (congrArg (fun z => pyReplace z "[[" "") f7).trans e8a
  have f8b := (congrArg (fun z => pyReplace z "]]" "") f8a).trans e8b
  have f9 := (congrArg (runSub (stepRem reTable)) f8b).trans e9
  have f10 := (congrArg (runSub stepHeading) f9).trans e10
  have f11 := (congrArg (runSub (stepRem reNamespaced)) f10).trans e11
  have f12 := (congrArg (runSub (stepGrp reExtPre reExtGrp reExtPost)) f11).trans e12
  have f13 := (congrArg (runSub (stepRem reBareUrl)) f12).trans e13
  have f14 := (congrArg (runSub stepLists) f13).trans e14
  have f15 := (congrArg (runSub (stepRem reMagic)) f14).trans e15
  have f16 := (congrArg (fun z => pyReplace z "\x27\x27" "") f15).trans e16
  have epre : preClean s = s := f16
  have hnp : nestedPass T w (preClean s) = some s := by
    rw [epre]
    exact nestedPass_id T w s h16
  have htl : topLoop T w (countOpenBrace s.data + 1) s.data = some s.data :=
    topLoop_no_tpl T w _ _ (breakTpl_none h16)
  have hfin := clean_steps T w s s s.data hnp htl
  rw [hfin]
  rw [show (⟨s.data⟩ : String) = s from rfl]
  rw [runSub_stepWs2_id s h17, runSub_stepWsDot_id s h17 h18, pyStrip_id s h19 h20]

/-- C4: `clean` is idempotent on outputs that contain no remaining
template or markup tokens: whenever `clean word x = y` and `y` is free of
every token any cleanup pass rewrites (`noMarkup`: no quote pairs, tags,
link or template or table delimiters, heading or list line starts, URLs,
magic words, no unnormalized whitespace, and stripped), re-running
`clean` on `y` returns `y` unchanged. -/
theorem c4_clean_idempotent_on_markup_free (T : LocaleTables) (w x y : String)
    (hx : clean T w x = some y) (hy : noMarkup y = true) :
    clean T w y = some y := clean_fixed T w y hy

/-- C4 witness: a cleaned output that is markup-free and fixed by
`clean`. -/
theorem c4_witness :
    clean emptyTables "foo" "\x7b\x7bunknown\x7d\x7d" = some "<i>(Unknown)</i>" ∧
    noMarkup "<i>(Unknown)</i>" = true ∧
    clean emptyTables "foo" "<i>(Unknown)</i>" = some "<i>(Unknown)</i>" := by
  refine ⟨by decide, by decide, ?_⟩
  exact c4_clean_idempotent_on_markup_free emptyTables "foo"
    "\x7b\x7bunknown\x7d\x7d" "<i>(Unknown)</i>" (by decide) (by decide)
